import Mathlib

/-!
# CppTrace: the path integrator and the render schedulers

A shallow embedding of `src/lib/scene/scene.hpp` (`Scene`), of the older
`src/lib/Scene/Scene.h`, and of the line scheduler of
`src/lib/extern/Fast-BVH/benchmark/Scheduler.h`.

`double` values are kept abstract: the scalar type `F` only has to provide the
operations the code uses.  Virtual interfaces (`Material`, `Hittable`, `Camera`)
are records of functions.  Calls into those interfaces are recorded in a call
list, so that statements about which calls happen can be made.
-/

namespace CppTrace

/-- The operations on `double` that `Scene` uses, with the constants that occur
in the code.  No law is assumed of the operations. -/
class DoubleOps (F : Type) extends Zero F, One F, Add F, Sub F, Mul F, Div F, IntCast F where
  /-- the literal `0.001` -/
  tMin : F
  /-- the macro `DBL_MAX` of `<cfloat>` -/
  DBL_MAX : F
  /-- the literal `0.5` -/
  c05 : F
  /-- the literal `0.7` -/
  c07 : F

/-- The type `Color3`: three `double` components. -/
structure Color3 (F : Type) where
  x : F
  y : F
  z : F
deriving DecidableEq, Repr

/-- Modelled from the spec: `common/vec3.hpp` is missing; `operator+` on `Color3`
is the component-wise sum. -/
instance {F : Type} [Add F] : Add (Color3 F) :=
  ⟨fun a b => ⟨a.x + b.x, a.y + b.y, a.z + b.z⟩⟩

/-- Modelled from the spec: `common/vec3.hpp` is missing; `operator*` on two
`Color3` values is "component-wise color multiplication". -/
instance {F : Type} [Mul F] : Mul (Color3 F) :=
  ⟨fun a b => ⟨a.x * b.x, a.y * b.y, a.z * b.z⟩⟩

/-- Modelled from the spec: `Vec3.h` is missing; `operator*` of a `Color3` and a
`double` scales every component. -/
def Color3.scale {F : Type} [Mul F] (a : Color3 F) (k : F) : Color3 F :=
  ⟨a.x * k, a.y * k, a.z * k⟩

/-- The color `{0, 0, 0}`. -/
def black {F : Type} [Zero F] : Color3 F := ⟨0, 0, 0⟩

/-- Modelled from the spec: `hittable/hit.hpp` is missing; a hit record holds
the distance `t`, the world-space point, the surface normal and the surface
parametrisation `(u, v)`.  These are the fields of `Hit` other than its
material pointer. -/
structure Surface (F P : Type) where
  u : F
  v : F
  location : P
  normal : P
  t : F
deriving DecidableEq, Repr

/-- Modelled from the spec: the declaration of `Material` is missing; the
capability is `emit(u, v, point) -> Color` and
`scatter(incomingRay, hit) -> optional(attenuationColor, outgoingRay)`.  In the
code `scatter(ray, hit, attenuation&, out&)` returns a `bool`: `false` is
`none`, `true` yields the two out-parameters. -/
structure Material (F R P : Type) where
  emit : F → F → P → Color3 F
  scatter : R → Surface F P → Option (Color3 F × R)

/-- Modelled from the spec: `hittable/hit.hpp` is missing; a `Hit` record is the
surface data with a reference to the material of the object hit. -/
structure Hit (F R P : Type) where
  surface : Surface F P
  material : Material F R P

/-- Modelled from the spec: the declaration of `Hittable` of `scene.hpp` is
missing; the capability the scene uses is the nearest-hit query
`hit(ray, hit&, tMin, tMax)`, which returns a `bool`: `false` is `none`. -/
structure Hittable (F R P : Type) where
  hit : R → F → F → Option (Hit F R P)

/-- Modelled from the spec: `camera.hpp` is missing; the capability is
`getRay(x, y) -> Ray`. -/
structure Camera (F R : Type) where
  getRay : F → F → R

/-- Modelled from the spec: `image.hpp` is missing; these are the fields of
`Image` that `Scene::render` reads, of type `int`. -/
structure Image where
  width : Int
  height : Int
  samples : Int
  bounces : Int
deriving DecidableEq, Repr

/-- The `struct Scene` of `scene.hpp`.  `accelerator` is a `shared_ptr`, `none`
when it is null; `camera` and `image` are taken to point to an object. -/
structure Scene (F R P : Type) where
  camera : Camera F R
  image : Image
  ambient : Color3 F
  acceleratorType : String
  objects : List (Hittable F R P)
  accelerator : Option (Hittable F R P)

/-- A call that `getPixelColor` makes into the accelerator or into a material. -/
inductive Call (F R P : Type) where
  | hit (ray : R) (tMin tMax : F)
  | emit (u v : F) (location : P)
  | scatter (ray : R) (surface : Surface F P)
deriving DecidableEq, Repr

/-- Is the call an accelerator query? -/
def Call.isHit {F R P : Type} : Call F R P → Bool
  | .hit _ _ _ => true
  | _ => false

/-- Is the call a call into a material? -/
def Call.isMaterial {F R P : Type} : Call F R P → Bool
  | .hit _ _ _ => false
  | _ => true

section Integrator

variable {F R P : Type} [DoubleOps F]

/-- The method `Scene::getPixelColor(ray, bouncesLeft)` of `scene.hpp`.  The
first component is the returned color, `none` when the code dereferences a
null `accelerator`; the second lists the calls made, in order. -/
def Scene.getPixelColor (s : Scene F R P) (ray : R) (bouncesLeft : Int) :
    Option (Color3 F) × List (Call F R P) :=
  if bouncesLeft ≤ 0 then
    (some ⟨0, 0, 0⟩, [])
  else
    match s.accelerator with
    | none => (none, [])
    | some accelerator =>
      match accelerator.hit ray DoubleOps.tMin DoubleOps.DBL_MAX with
      | none => (some s.ambient, [Call.hit ray DoubleOps.tMin DoubleOps.DBL_MAX])
      | some hit =>
        let emitted := hit.material.emit hit.surface.u hit.surface.v hit.surface.location
        match hit.material.scatter ray hit.surface with
        | none =>
          (some emitted,
            [Call.hit ray DoubleOps.tMin DoubleOps.DBL_MAX,
             Call.emit hit.surface.u hit.surface.v hit.surface.location,
             Call.scatter ray hit.surface])
        | some (attenuation, out) =>
          let rest := s.getPixelColor out (bouncesLeft - 1)
          (rest.1.map (fun c => emitted + c * attenuation),
            [Call.hit ray DoubleOps.tMin DoubleOps.DBL_MAX,
             Call.emit hit.surface.u hit.surface.v hit.surface.location,
             Call.scatter ray hit.surface] ++ rest.2)
termination_by bouncesLeft.toNat
decreasing_by omega

end Integrator

/-! ## The older `Scene` of `src/lib/Scene/Scene.h` -/

/-- The `Material` interface as the older `Scene` uses it: the `bool` that
`scatter` returns is discarded there, and the two out-parameters are read
after the call whatever it returned. -/
structure LegacyMaterial (F R P : Type) where
  scatter : R → Surface F P → Color3 F × R

/-- A `Hit` record of the older `Scene`. -/
structure LegacyHit (F R P : Type) where
  surface : Surface F P
  material : LegacyMaterial F R P

/-- The `BVH` member of the older `Scene`, held by value: its `hit`. -/
structure LegacyBVH (F R P : Type) where
  hit : R → F → F → Option (LegacyHit F R P)

/-- The method `Scene::getPixelColor(ray, bouncesLeft)` of
`src/lib/Scene/Scene.h`; `unitY ray` stands for `ray.direction.unit().y`. -/
def legacyGetPixelColor {F R P : Type} [DoubleOps F] (bvh : LegacyBVH F R P) (unitY : R → F)
    (ray : R) (bouncesLeft : Int) : Color3 F :=
  if bouncesLeft ≤ 0 then
    ⟨0, 0, 0⟩
  else
    match bvh.hit ray DoubleOps.tMin DoubleOps.DBL_MAX with
    | some hit =>
      let r := hit.material.scatter ray hit.surface
      legacyGetPixelColor bvh unitY r.2 (bouncesLeft - 1) * r.1
    | none =>
      let t := (unitY ray + 1) / ((2 : Int) : F)
      (Color3.mk 1 1 1).scale (1 - t) + (Color3.mk DoubleOps.c05 DoubleOps.c07 1).scale t
termination_by bouncesLeft.toNat
decreasing_by omega

/-! ## Construction and mutation of a `Scene` -/

/-- The exception the constructor throws. -/
inductive Exception where
  | invalid_argument (what : String)
deriving DecidableEq, Repr

/-- Modelled from the spec: `hittable_list.hpp` is missing; `pushHittable`
extends the backing sequence. -/
def HittableList.pushHittable {H : Type} (objects : List H) (hittable : H) : List H :=
  objects ++ [hittable]

/-- Modelled from the spec: `hittable_list.hpp` is missing; `loadHittable`
replaces the backing sequence by the one object. -/
def HittableList.loadHittable {H : Type} (_objects : List H) (hittable : H) : List H :=
  [hittable]

/-- Modelled from the spec: `hittable_list.hpp` is missing; `loadHittables`
replaces the backing sequence by the given one. -/
def HittableList.loadHittables {H : Type} (_objects : List H) (hittables : List H) : List H :=
  hittables

section Construction

variable {F R P : Type}

/-- The object collections a `BVH` has been constructed from so far, oldest
first: a record of the calls `std::make_shared<BVH>(objects)`. -/
abbrev BuildLog (F R P : Type) := List (List (Hittable F R P))

/-- The method `Scene::notifyAccelerator`.  `BVH objects` is the accelerator
that the constructor of `BVH` (`accelerators/bvh.hpp`, missing) builds from
`objects`; the `"kdtree"` case is a `TODO` comment in the code. -/
def Scene.notifyAccelerator (BVH : List (Hittable F R P) → Hittable F R P)
    (s : Scene F R P) (log : BuildLog F R P) : Scene F R P × BuildLog F R P :=
  if s.acceleratorType = "bvh" then
    ({ s with accelerator := some (BVH s.objects) }, log ++ [s.objects])
  else
    (s, log)

/-- The text of the exception of the constructor. -/
def invalidAcceleratorText (acceleratorType : String) : String :=
  "Invalid accelerator type " ++ String.singleton (Char.ofNat 39) ++ acceleratorType
    ++ String.singleton (Char.ofNat 39) ++ ", only [bvh, kdtree] are supported"

/-- The constructor `Scene::Scene(camera, image, acceleratorType, ambient,
hittables)`: the member initialisers, the check of the accelerator type, then
`notifyAccelerator`. -/
def Scene.new (BVH : List (Hittable F R P) → Hittable F R P)
    (camera : Camera F R) (image : Image) (acceleratorType : String)
    (ambient : Color3 F) (hittables : List (Hittable F R P)) (log : BuildLog F R P) :
    Except Exception (Scene F R P) × BuildLog F R P :=
  let s : Scene F R P :=
    { camera := camera, image := image, objects := hittables, ambient := ambient,
      acceleratorType := acceleratorType, accelerator := none }
  if acceleratorType ≠ "bvh" ∧ acceleratorType ≠ "kdtree" then
    (Except.error (Exception.invalid_argument (invalidAcceleratorText acceleratorType)), log)
  else
    let r := s.notifyAccelerator BVH log
    (Except.ok r.1, r.2)

/-- The method `Scene::setAmbient`. -/
def Scene.setAmbient (s : Scene F R P) (ambient : Color3 F) : Scene F R P :=
  { s with ambient := ambient }

/-- The method `Scene::pushHittable`. -/
def Scene.pushHittable (BVH : List (Hittable F R P) → Hittable F R P)
    (s : Scene F R P) (hittable : Hittable F R P) (log : BuildLog F R P) :
    Scene F R P × BuildLog F R P :=
  Scene.notifyAccelerator BVH
    { s with objects := HittableList.pushHittable s.objects hittable } log

/-- The method `Scene::pushHittables`: one `objects.pushHittable` per element,
then one `notifyAccelerator`. -/
def Scene.pushHittables (BVH : List (Hittable F R P) → Hittable F R P)
    (s : Scene F R P) (hittables : List (Hittable F R P)) (log : BuildLog F R P) :
    Scene F R P × BuildLog F R P :=
  Scene.notifyAccelerator BVH
    { s with objects := hittables.foldl HittableList.pushHittable s.objects } log

/-- The method `Scene::loadHittable`. -/
def Scene.loadHittable (BVH : List (Hittable F R P) → Hittable F R P)
    (s : Scene F R P) (hittable : Hittable F R P) (log : BuildLog F R P) :
    Scene F R P × BuildLog F R P :=
  Scene.notifyAccelerator BVH
    { s with objects := HittableList.loadHittable s.objects hittable } log

/-- The method `Scene::loadHittables`. -/
def Scene.loadHittables (BVH : List (Hittable F R P) → Hittable F R P)
    (s : Scene F R P) (hittables : List (Hittable F R P)) (log : BuildLog F R P) :
    Scene F R P × BuildLog F R P :=
  Scene.notifyAccelerator BVH
    { s with objects := HittableList.loadHittables s.objects hittables } log

end Construction

/-! ## `Scene::render`: the work lists -/

/-- The vector `locations`: one list of `(row, col)` pairs per worker. -/
abbrev Locations := List (List (Int × Int))

/-- The body of the inner loop of `Scene::render`:
`locations[curThread].emplace_back(row, col)` and
`curThread = (curThread + 1) % threads`.  `none` when the index is outside
`locations` or the divisor is zero. -/
def emplace (threads row col : Int) (st : Locations × Int) : Option (Locations × Int) :=
  if 0 ≤ st.2 ∧ st.2.toNat < st.1.length ∧ threads ≠ 0 then
    some (st.1.modify (fun l => l ++ [(row, col)]) st.2.toNat, (st.2 + 1).tmod threads)
  else
    none

/-- The two nested loops of `Scene::render` over `row` and `col`, from the
state `st`. -/
def fillLocations (image : Image) (threads : Int) (st : Option (Locations × Int)) :
    Option (Locations × Int) :=
  (List.range image.height.toNat).foldl
    (fun st (row : Nat) => (List.range image.width.toNat).foldl
      (fun st (col : Nat) => st.bind (emplace threads (row : Int) (col : Int))) st)
    st

/-- The work lists `locations` that `Scene::render(threads)` builds;
`none` when `std::vector` is given a negative size or the loop fails.  The
`render` of the older `Scene` builds them with the same loops. -/
def renderLocations (image : Image) (threads : Int) : Option Locations :=
  if threads < 0 then none
  else (fillLocations image threads (some (List.replicate threads.toNat [], 0))).map Prod.fst

/-- The range of `int`. -/
def INT_MAX : Int := 2147483647

/-- The value of a 32-bit `int` computation whose exact result is `z`. -/
def toInt32 (z : Int) : Int := (z + 2147483648) % 4294967296 - 2147483648

/-- The local `entries` of `Scene::render`: `image->width * image->height`. -/
def renderEntries (image : Image) : Int := toInt32 (image.width * image.height)

/-! ## `Scene::render`: the worker job -/

/-- What a worker job does to the image and to the progress counter. -/
inductive Effect (F : Type) where
  | setPixel (row col : Int) (color : Color3 F)
  | progress
deriving DecidableEq, Repr

/-- Is the effect an increment of the progress counter? -/
def Effect.isProgress {F : Type} : Effect F → Bool
  | .progress => true
  | .setPixel _ _ _ => false

/-- Is the effect a write of the pixel `(row, col)`? -/
def Effect.isSetPixel {F : Type} (row col : Int) : Effect F → Bool
  | .progress => false
  | .setPixel r c _ => decide (r = row ∧ c = col)

section Job

variable {F R P : Type} [DoubleOps F]

/-- One iteration of the sample loop of `getJob`.  The state is the number of
calls of `common::randomDouble()` made so far and the local `color`;
`rand n` is the value that call number `n` returns. -/
def Scene.sample (s : Scene F R P) (rand : Nat → F) (row col : Int)
    (st : Nat × Color3 F) : Option (Nat × Color3 F) :=
  let dx := rand st.1
  let dy := rand (st.1 + 1)
  let x := ((col : F) + dx) / (s.image.width : F)
  let y := ((row : F) + dy) / (s.image.height : F)
  let ray := s.camera.getRay x y
  (s.getPixelColor ray s.image.bounces).1.map (fun c => (st.1 + 2, st.2 + c))

/-- One iteration of the pixel loop of `getJob`: the sample loop from
`color(0, 0, 0)`, then `image->setPixel(row, col, color)`, then `progress++`. -/
def Scene.pixel (s : Scene F R P) (rand : Nat → F) (st : Nat × List (Effect F))
    (p : Int × Int) : Option (Nat × List (Effect F)) :=
  ((List.range s.image.samples.toNat).foldl
      (fun acc _ => acc.bind (s.sample rand p.1 p.2)) (some (st.1, ⟨0, 0, 0⟩))).map
    (fun r => (r.1, st.2 ++ [Effect.setPixel p.1 p.2 r.2, Effect.progress]))

/-- The lambda `getJob` of `Scene::render` run on the work list `work`, with
`draws` calls of `randomDouble` made before: the effects in order, `none` when
a call of `getPixelColor` dereferences a null accelerator. -/
def Scene.getJob (s : Scene F R P) (rand : Nat → F) (draws : Nat) (work : List (Int × Int)) :
    Option (List (Effect F)) :=
  (work.foldl (fun st p => st.bind (fun st => s.pixel rand st p)) (some (draws, []))).map
    Prod.snd

/-- The raw sum of the samples of a pixel, as specified: starting from black, the
colors `color ray` of the `samples` rays of pixel `(row, col)`, added in order,
the jitter of sample `i` being draws `draws + 2 i` and `draws + 2 i + 1`. -/
def rawSum (s : Scene F R P) (rand : Nat → F) (color : R → Color3 F) (draws : Nat)
    (row col : Int) : Color3 F :=
  ((List.range s.image.samples.toNat).map (fun i =>
      color (s.camera.getRay
        (((col : F) + rand (draws + 2 * i)) / (s.image.width : F))
        (((row : F) + rand (draws + 2 * i + 1)) / (s.image.height : F))))).foldl
    (fun a c => a + c) ⟨0, 0, 0⟩

/-- The effects of a worker job, as specified: for each pixel of the work list
in turn, one `setPixel` with the raw sum of its samples, followed by one
increment of the progress counter. -/
def jobSpec (s : Scene F R P) (rand : Nat → F) (color : R → Color3 F) :
    Nat → List (Int × Int) → List (Effect F)
  | _, [] => []
  | draws, p :: rest =>
    Effect.setPixel p.1 p.2 (rawSum s rand color draws p.1 p.2) :: Effect.progress
      :: jobSpec s rand color (draws + 2 * s.image.samples.toNat) rest

end Job

/-! ## `FastBVH::Benchmark::Scheduler` -/

/-- A call that `Scheduler::schedule` makes. -/
inductive SchedCall where
  | observer (y total : Nat)
  | traceLine (y : Nat)
deriving DecidableEq, Repr

/-- The line of a `traceLine` call. -/
def SchedCall.line? : SchedCall → Option Nat
  | .observer _ _ => none
  | .traceLine y => some y

/-- The outer loop of `Scheduler::schedule` from line `y` on: the `observer`
call and the `max_threads` calls `traceLine(tracer, y + i)` of each round.
The `std::size_t` sums are exact: they stay far below `2 ^ 64`. -/
def Scheduler.scheduleFrom (img_y_res max_threads : Nat) (y : Nat) : List SchedCall :=
  if y < img_y_res ∧ 0 < max_threads then
    SchedCall.observer y img_y_res
      :: (List.range max_threads).map (fun i => SchedCall.traceLine (y + i))
      ++ Scheduler.scheduleFrom img_y_res max_threads (y + max_threads)
  else
    []
termination_by img_y_res - y
decreasing_by omega

/-- The method `Scheduler::schedule` with `max_threads` the value of
`std::thread::hardware_concurrency()`: the calls in order, `none` when the loop
never ends (`max_threads = 0` on a non-empty image). -/
def Scheduler.schedule (img_y_res max_threads : Nat) : Option (List SchedCall) :=
  if max_threads = 0 ∧ 0 < img_y_res then none
  else some (Scheduler.scheduleFrom img_y_res max_threads 0
    ++ [SchedCall.observer img_y_res img_y_res])

/-- The lines passed to `traceLine` by a list of calls. -/
def tracedLines (calls : List SchedCall) : List Nat :=
  calls.filterMap SchedCall.line?

/-- The size of `pixels` after the constructor `Scheduler(img_w, img_h)`. -/
def Scheduler.pixelsSize (img_w img_h : Nat) : Nat := img_w * img_h * 3

/-- The indices of `pixels` that `traceLine(tracer, y)` writes, in order. -/
def Scheduler.traceLine (img_x_res y : Nat) : List Nat :=
  (List.range img_x_res).flatMap (fun x =>
    [y * img_x_res * 3 + 3 * x, y * img_x_res * 3 + 3 * x + 1, y * img_x_res * 3 + 3 * x + 2])

/-- The pixel with flattened row-major index `i` in an image `w` wide. -/
def pixelAt (w i : Nat) : Int × Int := (((i / w : Nat) : Int), ((i % w : Nat) : Int))

/-- The indices below `n` that are congruent to `t` modulo `k`, increasing. -/
def stride (k n t : Nat) : List Nat := (List.range n).filter (fun i => i % k = t)

/-- The number of indices below `n` congruent to `t` modulo `k`. -/
def strideLen (k n t : Nat) : Nat := n / k + (if t < n % k then 1 else 0)

/-! ## A concrete scene -/

/-- Exact rationals as a stand-in for `double`, with the values of the four
constants. -/
instance : DoubleOps ℚ where
  tMin := 1 / 1000
  DBL_MAX := (2 ^ 53 - 1) * 2 ^ 971
  c05 := 1 / 2
  c07 := 7 / 10

/-- A material that emits `(1, 2, 3)` and scatters every ray `r` to `r + 1`
with attenuation `(2, 2, 2)`. -/
def demoMirror : Material ℚ ℚ ℚ :=
  ⟨fun _ _ _ => ⟨1, 2, 3⟩, fun r _ => some (⟨2, 2, 2⟩, r + 1)⟩

/-- A material that emits `(5, 5, 5)` and never scatters. -/
def demoLamp : Material ℚ ℚ ℚ :=
  ⟨fun _ _ _ => ⟨5, 5, 5⟩, fun _ _ => none⟩

/-- An accelerator over rays numbered by rationals: rays below 2 hit the
mirror, rays below 3 the lamp, the others nothing. -/
def demoAccelerator : Hittable ℚ ℚ ℚ :=
  ⟨fun r _ _ =>
    if r < 2 then some ⟨⟨0, 0, 0, 0, 1⟩, demoMirror⟩
    else if r < 3 then some ⟨⟨0, 0, 0, 0, 1⟩, demoLamp⟩
    else none⟩

/-- An accelerator that no ray hits. -/
def demoVoid : Hittable ℚ ℚ ℚ := ⟨fun _ _ _ => none⟩

/-- A camera whose ray number is `x + y`. -/
def demoCamera : Camera ℚ ℚ := ⟨fun x y => x + y⟩

/-- A 3 x 2 image with 2 samples per pixel and 3 bounces. -/
def demoImage : Image := ⟨3, 2, 2, 3⟩

/-- A scene over `demoAccelerator` with ambient color `(7, 7, 7)`. -/
def demoScene : Scene ℚ ℚ ℚ :=
  ⟨demoCamera, demoImage, ⟨7, 7, 7⟩, "bvh", [], some demoAccelerator⟩

/-- A scene that no ray hits, with ambient color `(7, 7, 7)`. -/
def demoVoidScene : Scene ℚ ℚ ℚ :=
  ⟨demoCamera, demoImage, ⟨7, 7, 7⟩, "bvh", [], some demoVoid⟩

/-- A stand-in for the constructor of `BVH`: a linear scan that returns the
first hit. -/
def demoBVH (objects : List (Hittable ℚ ℚ ℚ)) : Hittable ℚ ℚ ℚ :=
  ⟨fun ray tMin tMax => objects.findSome? (fun o => o.hit ray tMin tMax)⟩

/-! ## Lemmas -/

section IntegratorProofs

variable {F R P : Type} [DoubleOps F]

theorem getPixelColor_of_le (s : Scene F R P) (ray : R) (bouncesLeft : Int)
    (h : bouncesLeft ≤ 0) : s.getPixelColor ray bouncesLeft = (some ⟨0, 0, 0⟩, []) := by
  rw [Scene.getPixelColor, if_pos h]

theorem getPixelColor_miss (s : Scene F R P) (acc : Hittable F R P) (ray : R)
    (bouncesLeft : Int) (h : 0 < bouncesLeft) (ha : s.accelerator = some acc)
    (hq : acc.hit ray DoubleOps.tMin DoubleOps.DBL_MAX = none) :
    s.getPixelColor ray bouncesLeft
      = (some s.ambient, [Call.hit ray DoubleOps.tMin DoubleOps.DBL_MAX]) := by
  rw [Scene.getPixelColor, if_neg (by omega)]
  simp only [ha, hq]

theorem getPixelColor_absorb (s : Scene F R P) (acc : Hittable F R P) (ray : R)
    (bouncesLeft : Int) (hit : Hit F R P) (h : 0 < bouncesLeft) (ha : s.accelerator = some acc)
    (hq : acc.hit ray DoubleOps.tMin DoubleOps.DBL_MAX = some hit)
    (hs : hit.material.scatter ray hit.surface = none) :
    s.getPixelColor ray bouncesLeft
      = (some (hit.material.emit hit.surface.u hit.surface.v hit.surface.location),
          [Call.hit ray DoubleOps.tMin DoubleOps.DBL_MAX,
           Call.emit hit.surface.u hit.surface.v hit.surface.location,
           Call.scatter ray hit.surface]) := by
  rw [Scene.getPixelColor, if_neg (by omega)]
  simp only [ha, hq, hs]

theorem getPixelColor_bounce (s : Scene F R P) (acc : Hittable F R P) (ray out : R)
    (bouncesLeft : Int) (hit : Hit F R P) (attenuation : Color3 F)
    (h : 0 < bouncesLeft) (ha : s.accelerator = some acc)
    (hq : acc.hit ray DoubleOps.tMin DoubleOps.DBL_MAX = some hit)
    (hs : hit.material.scatter ray hit.surface = some (attenuation, out)) :
    s.getPixelColor ray bouncesLeft
      = ((s.getPixelColor out (bouncesLeft - 1)).1.map
            (fun c => hit.material.emit hit.surface.u hit.surface.v hit.surface.location
              + c * attenuation),
          [Call.hit ray DoubleOps.tMin DoubleOps.DBL_MAX,
           Call.emit hit.surface.u hit.surface.v hit.surface.location,
           Call.scatter ray hit.surface] ++ (s.getPixelColor out (bouncesLeft - 1)).2) := by
  rw [Scene.getPixelColor, if_neg (by omega)]
  simp only [ha, hq, hs]

end IntegratorProofs


section IntegratorBounds

variable {F R P : Type} [DoubleOps F]

theorem getPixelColor_null (s : Scene F R P) (ray : R) (bouncesLeft : Int)
    (h : 0 < bouncesLeft) (ha : s.accelerator = none) :
    s.getPixelColor ray bouncesLeft = (none, []) := by
  rw [Scene.getPixelColor, if_neg (by omega)]
  simp only [ha]

/-- With an accelerator present every call returns a color. -/
theorem getPixelColor_isSome (s : Scene F R P) (acc : Hittable F R P)
    (ha : s.accelerator = some acc) (n : Nat) :
    ∀ (ray : R) (bouncesLeft : Int), bouncesLeft ≤ n →
      ∃ c, (s.getPixelColor ray bouncesLeft).1 = some c := by
  induction n with
  | zero =>
    intro ray b hb
    exact ⟨⟨0, 0, 0⟩, by rw [getPixelColor_of_le s ray b (by simpa using hb)]⟩
  | succ n ih =>
    intro ray b hb
    by_cases hpos : 0 < b
    · cases hq : acc.hit ray DoubleOps.tMin DoubleOps.DBL_MAX with
      | none => exact ⟨s.ambient, by rw [getPixelColor_miss s acc ray b hpos ha hq]⟩
      | some hit =>
        cases hs : hit.material.scatter ray hit.surface with
        | none =>
          exact ⟨hit.material.emit hit.surface.u hit.surface.v hit.surface.location,
            by rw [getPixelColor_absorb s acc ray b hit hpos ha hq hs]⟩
        | some r =>
          obtain ⟨attenuation, out⟩ := r
          obtain ⟨c, hc⟩ := ih out (b - 1) (by push_cast at hb; omega)
          refine ⟨hit.material.emit hit.surface.u hit.surface.v hit.surface.location
            + c * attenuation, ?_⟩
          rw [getPixelColor_bounce s acc ray out b hit attenuation hpos ha hq hs, hc]
          rfl
    · exact ⟨⟨0, 0, 0⟩, by rw [getPixelColor_of_le s ray b (by omega)]⟩

/-- The calls of one top-level call: at most `bouncesLeft` accelerator queries
and at most three calls per level. -/
theorem getPixelColor_calls_le (s : Scene F R P) (n : Nat) :
    ∀ (ray : R) (bouncesLeft : Int), bouncesLeft ≤ n →
      ((s.getPixelColor ray bouncesLeft).2.filter Call.isHit).length ≤ bouncesLeft.toNat
      ∧ (s.getPixelColor ray bouncesLeft).2.length ≤ 3 * bouncesLeft.toNat := by
  induction n with
  | zero =>
    intro ray b hb
    rw [getPixelColor_of_le s ray b (by simpa using hb)]
    simp
  | succ n ih =>
    intro ray b hb
    by_cases hpos : 0 < b
    · cases ha : s.accelerator with
      | none => rw [getPixelColor_null s ray b hpos ha]; simp
      | some acc =>
        have h1 : 1 ≤ b.toNat := by omega
        cases hq : acc.hit ray DoubleOps.tMin DoubleOps.DBL_MAX with
        | none =>
          rw [getPixelColor_miss s acc ray b hpos ha hq]
          simp [Call.isHit]; omega
        | some hit =>
          cases hs : hit.material.scatter ray hit.surface with
          | none =>
            rw [getPixelColor_absorb s acc ray b hit hpos ha hq hs]
            simp [Call.isHit]; omega
          | some r =>
            obtain ⟨attenuation, out⟩ := r
            obtain ⟨ih1, ih2⟩ := ih out (b - 1) (by push_cast at hb; omega)
            rw [getPixelColor_bounce s acc ray out b hit attenuation hpos ha hq hs]
            have h2 : (b - 1).toNat + 1 = b.toNat := by omega
            simp [Call.isHit, List.filter_cons]
            omega
    · rw [getPixelColor_of_le s ray b (by omega)]
      simp

theorem legacyGetPixelColor_of_le (bvh : LegacyBVH F R P) (unitY : R → F) (ray : R)
    (bouncesLeft : Int) (h : bouncesLeft ≤ 0) :
    legacyGetPixelColor bvh unitY ray bouncesLeft = ⟨0, 0, 0⟩ := by
  rw [legacyGetPixelColor, if_pos h]

theorem Color3.add_def (a b : Color3 F) : a + b = ⟨a.x + b.x, a.y + b.y, a.z + b.z⟩ := rfl

theorem Color3.mul_def (a b : Color3 F) : a * b = ⟨a.x * b.x, a.y * b.y, a.z * b.z⟩ := rfl

theorem Color3.mul_comm_of (hcomm : ∀ a b : F, a * b = b * a) (a b : Color3 F) :
    a * b = b * a := by
  show Color3.mk _ _ _ = Color3.mk _ _ _
  rw [hcomm a.x, hcomm a.y, hcomm a.z]

end IntegratorBounds


section LocationsProofs

theorem emplace_ok (k c : Nat) (row col : Int) (L : Locations) (hc : c < L.length)
    (hk : 0 < k) :
    emplace (k : Int) row col (L, (c : Int))
      = some (L.modify (fun l => l ++ [(row, col)]) c, (((c + 1) % k : Nat) : Int)) := by
  unfold emplace
  have hk0 : (k : Int) ≠ 0 := by omega
  rw [if_pos ⟨by simp, by simpa using hc, hk0⟩]
  simp only [Int.toNat_ofNat, Int.ofNat_tmod]
  rfl

theorem modify_map_range {α : Type} (k c : Nat) (G : Nat → List α) (a : α) :
    ((List.range k).map G).modify (fun l => l ++ [a]) c
      = (List.range k).map (fun t => if t = c then G t ++ [a] else G t) := by
  apply List.ext_getElem
  · simp
  · intro i h1 h2
    rw [List.getElem_modify]
    simp only [List.getElem_map, List.getElem_range]
    by_cases hci : c = i
    · subst hci; simp
    · rw [if_neg hci, if_neg (Ne.symm hci)]

theorem stride_succ (k n t : Nat) :
    stride k (n + 1) t = if n % k = t then stride k n t ++ [n] else stride k n t := by
  unfold stride
  rw [List.range_succ, List.filter_append]
  by_cases h : n % k = t <;> simp [h]

/-- The row and column loops visit the flattened indices `0 .. h * w - 1` in
order. -/
theorem fillLocations_flat (image : Image) (threads : Int) (st : Option (Locations × Int)) :
    fillLocations image threads st
      = (List.range (image.height.toNat * image.width.toNat)).foldl
          (fun st i => st.bind (emplace threads (pixelAt image.width.toNat i).1
            (pixelAt image.width.toNat i).2)) st := by
  unfold fillLocations
  generalize image.height.toNat = h
  generalize image.width.toNat = w
  induction h with
  | zero => simp
  | succ h ih =>
    rw [List.range_succ, List.foldl_append, ih, Nat.succ_mul, List.range_add,
      List.foldl_append, List.foldl_map]
    simp only [List.foldl_cons, List.foldl_nil]
    apply List.foldl_ext
    intro st c hc
    have hcw : c < w := List.mem_range.mp hc
    have hw : 0 < w := by omega
    have h1 : (h * w + c) / w = h := by
      rw [Nat.mul_comm, Nat.mul_add_div hw, Nat.div_eq_of_lt hcw, Nat.add_zero]
    have h2 : (h * w + c) % w = c := by
      rw [Nat.mul_comm, Nat.mul_add_mod, Nat.mod_eq_of_lt hcw]
    simp only [pixelAt, h1, h2]

/-- After the first `n` pixels worker `t` holds the pixels of the indices
below `n` congruent to `t`, and `curThread` is `n % k`. -/
theorem foldl_emplace (k w : Nat) (hk : 0 < k) (n : Nat) :
    (List.range n).foldl
        (fun st i => st.bind (emplace (k : Int) (pixelAt w i).1 (pixelAt w i).2))
        (some (List.replicate k [], 0))
      = some ((List.range k).map (fun t => (stride k n t).map (pixelAt w)),
          ((n % k : Nat) : Int)) := by
  induction n with
  | zero =>
    simp only [List.range_zero, List.foldl_nil, stride, List.filter_nil, List.map_nil,
      Nat.zero_mod, Nat.cast_zero]
    congr 2
    apply List.ext_getElem <;> simp
  | succ n ih =>
    rw [List.range_succ, List.foldl_append, ih]
    simp only [List.foldl_cons, List.foldl_nil, Option.some_bind]
    rw [emplace_ok k (n % k) _ _ _ (by simpa using Nat.mod_lt n hk) hk, modify_map_range]
    congr 2
    · apply List.map_congr_left
      intro t _
      rw [stride_succ]
      by_cases h : n % k = t
      · rw [if_pos h.symm, if_pos h]; simp [pixelAt]
      · rw [if_neg (Ne.symm h), if_neg h]
    · rw [Nat.add_mod n 1 k]
      simp

/-- The work lists in closed form. -/
theorem renderLocations_eq (image : Image) (k : Nat) (hk : 0 < k) :
    renderLocations image (k : Int)
      = some ((List.range k).map (fun t =>
          (stride k (image.height.toNat * image.width.toNat) t).map
            (pixelAt image.width.toNat))) := by
  unfold renderLocations
  rw [if_neg (by omega), fillLocations_flat, Int.toNat_ofNat, foldl_emplace k _ hk]
  rfl

end LocationsProofs


section StrideProofs

theorem succ_div_mod (k n : Nat) (hk : 0 < k) :
    (n % k + 1 < k ∧ (n + 1) / k = n / k ∧ (n + 1) % k = n % k + 1)
    ∨ (n % k + 1 = k ∧ (n + 1) / k = n / k + 1 ∧ (n + 1) % k = 0) := by
  have hr : n % k < k := Nat.mod_lt n hk
  have hn : n + 1 = k * (n / k) + (n % k + 1) := by
    have := Nat.div_add_mod n k
    omega
  have hd : (n + 1) / k = n / k + (n % k + 1) / k := by
    conv_lhs => rw [hn]
    exact Nat.mul_add_div hk _ _
  have hm : (n + 1) % k = (n % k + 1) % k := by
    conv_lhs => rw [hn]
    exact Nat.mul_add_mod _ _ _
  by_cases h : n % k + 1 < k
  · left
    refine ⟨h, ?_, ?_⟩
    · rw [hd, Nat.div_eq_of_lt h, Nat.add_zero]
    · rw [hm, Nat.mod_eq_of_lt h]
  · right
    have h1 : n % k + 1 = k := by omega
    refine ⟨h1, ?_, ?_⟩
    · rw [hd, h1, Nat.div_self hk]
    · rw [hm, h1, Nat.mod_self]

theorem strideLen_succ (k n t : Nat) (hk : 0 < k) (ht : t < k) :
    strideLen k (n + 1) t = strideLen k n t + (if n % k = t then 1 else 0) := by
  unfold strideLen
  rcases succ_div_mod k n hk with ⟨h1, h2, h3⟩ | ⟨h1, h2, h3⟩
  · rw [h2, h3]
    by_cases ha : t < n % k
    · rw [if_pos ha, if_pos (by omega), if_neg (by omega)]
    · by_cases hb : n % k = t
      · rw [if_neg ha, if_pos (by omega), if_pos hb]
      · rw [if_neg ha, if_neg (by omega), if_neg hb]
  · rw [h2, h3]
    by_cases hb : n % k = t
    · rw [if_neg (by omega), if_neg (by omega), if_pos hb]
    · rw [if_neg (by omega), if_pos (by omega), if_neg hb]

theorem strideLen_mul_add (k n : Nat) : strideLen k n (n % k) * k + n % k = n := by
  unfold strideLen
  rw [if_neg (by omega), Nat.add_zero, Nat.mul_comm]
  exact Nat.div_add_mod n k

/-- The indices of worker `t` are `t, t + k, t + 2 k, ...`. -/
theorem stride_eq_map (k n t : Nat) (hk : 0 < k) (ht : t < k) :
    stride k n t = (List.range (strideLen k n t)).map (fun j => j * k + t) := by
  induction n with
  | zero => simp [stride, strideLen]
  | succ n ih =>
    rw [stride_succ, strideLen_succ k n t hk ht]
    by_cases h : n % k = t
    · rw [if_pos h, if_pos h, List.range_succ, List.map_append, ih]
      have := strideLen_mul_add k n
      rw [h] at this
      simp [this]
    · rw [if_neg h, if_neg h, Nat.add_zero, ih]

theorem length_stride (k n t : Nat) (hk : 0 < k) (ht : t < k) :
    (stride k n t).length = strideLen k n t := by
  rw [stride_eq_map k n t hk ht]; simp

theorem mem_stride (k n t i : Nat) : i ∈ stride k n t ↔ i < n ∧ i % k = t := by
  simp [stride]

theorem nodup_stride (k n t : Nat) : (stride k n t).Nodup :=
  (List.nodup_range n).filter _

theorem sum_indicator_lt (k r : Nat) (hr : r ≤ k) :
    ((List.range k).map (fun t => if t < r then 1 else 0)).sum = r := by
  induction k generalizing r with
  | zero => simp; omega
  | succ k ih =>
    rw [List.range_succ, List.map_append, List.sum_append]
    by_cases h : r ≤ k
    · rw [ih r h]; simp; omega
    · have hrk : r = k + 1 := by omega
      subst hrk
      have : ((List.range k).map (fun t => if t < k + 1 then 1 else 0)).sum = k := by
        have h2 : (List.range k).map (fun t => if t < k + 1 then 1 else 0)
            = (List.range k).map (fun t => if t < k then 1 else 0) := by
          apply List.map_congr_left
          intro t ht
          have := List.mem_range.mp ht
          rw [if_pos (by omega), if_pos this]
        rw [h2, ih k (le_refl k)]
      rw [this]; simp

/-- The lengths of the `k` strides add up to `n`. -/
theorem sum_strideLen (k n : Nat) (hk : 0 < k) :
    ((List.range k).map (fun t => strideLen k n t)).sum = n := by
  unfold strideLen
  rw [List.sum_map_add, sum_indicator_lt k (n % k) (Nat.le_of_lt (Nat.mod_lt n hk))]
  simp only [List.map_const', List.length_range, List.sum_replicate, smul_eq_mul]
  exact Nat.div_add_mod n k

theorem strideLen_le_succ (k n t u : Nat) : strideLen k n t ≤ strideLen k n u + 1 := by
  unfold strideLen
  split <;> split <;> omega

theorem pixelAt_injective (w : Nat) : Function.Injective (pixelAt w) := by
  intro a b h
  simp only [pixelAt, Prod.mk.injEq, Nat.cast_inj] at h
  have ha := Nat.div_add_mod a w
  have hb := Nat.div_add_mod b w
  rw [h.1, h.2] at ha
  omega

end StrideProofs


section WorkListProofs

theorem getElem?_map_range {α : Type} (k t : Nat) (G : Nat → α) (l : α)
    (h : ((List.range k).map G)[t]? = some l) : t < k ∧ l = G t := by
  rw [List.getElem?_map] at h
  by_cases ht : t < k
  · rw [List.getElem?_range ht] at h
    simp only [Option.map_some', Option.some.injEq] at h
    exact ⟨ht, h.symm⟩
  · rw [List.getElem?_eq_none (by simpa using ht)] at h
    simp at h

theorem pixelAt_mul_add (w r c : Nat) (hc : c < w) :
    pixelAt w (r * w + c) = ((r : Int), (c : Int)) := by
  have hw : 0 < w := by omega
  have h1 : (r * w + c) / w = r := by
    rw [Nat.mul_comm, Nat.mul_add_div hw, Nat.div_eq_of_lt hc, Nat.add_zero]
  have h2 : (r * w + c) % w = c := by
    rw [Nat.mul_comm, Nat.mul_add_mod, Nat.mod_eq_of_lt hc]
  simp only [pixelAt, h1, h2]

theorem pixelAt_flat (w i : Nat) :
    (pixelAt w i).1 * (w : Int) + (pixelAt w i).2 = (i : Int) := by
  simp only [pixelAt]
  have := Nat.div_add_mod i w
  have h2 : ((i / w * w + i % w : Nat) : Int) = (i : Int) := by
    rw [Nat.mul_comm]; exact congrArg Nat.cast this
  push_cast at h2
  exact h2

theorem count_map_eq_one {α β : Type} [BEq β] [LawfulBEq β] (f : α → β)
    (hf : Function.Injective f) (l : List α) (hn : l.Nodup) (x : α) (hx : x ∈ l) :
    (l.map f).count (f x) = 1 := by
  induction l with
  | nil => simp at hx
  | cons a l ih =>
    rw [List.map_cons, List.count_cons]
    rw [List.nodup_cons] at hn
    by_cases hax : a = x
    · subst hax
      have h0 : (l.map f).count (f a) = 0 := by
        rw [List.count_eq_zero]
        intro hmem
        obtain ⟨b, hb, hfb⟩ := List.mem_map.mp hmem
        exact hn.1 (hf hfb ▸ hb)
      rw [h0]; simp
    · have hx2 : x ∈ l := by
        rcases List.mem_cons.mp hx with h | h
        · exact absurd h.symm hax
        · exact h
      have hne : (f a == f x) = false := by
        rw [beq_eq_false_iff_ne]
        exact fun h => hax (hf h)
      rw [ih hn.2 hx2, hne]; simp

theorem toInt32_of_range (z : Int) (h0 : 0 ≤ z) (h1 : z ≤ INT_MAX) : toInt32 z = z := by
  unfold toInt32
  unfold INT_MAX at h1
  omega

end WorkListProofs


section JobProofs

variable {F R P : Type} [DoubleOps F]

/-- The sample loop: `n` iterations make `2 n` draws and add the `n` colors in
order. -/
theorem foldl_sample (s : Scene F R P) (rand : Nat → F) (color : R → Color3 F)
    (hc : ∀ ray, (s.getPixelColor ray s.image.bounces).1 = some (color ray))
    (row col : Int) (draws : Nat) (c0 : Color3 F) (n : Nat) :
    (List.range n).foldl (fun acc _ => acc.bind (s.sample rand row col)) (some (draws, c0))
      = some (draws + 2 * n,
          ((List.range n).map (fun i =>
            color (s.camera.getRay
              (((col : F) + rand (draws + 2 * i)) / (s.image.width : F))
              (((row : F) + rand (draws + 2 * i + 1)) / (s.image.height : F))))).foldl
            (fun a c => a + c) c0) := by
  induction n with
  | zero => simp
  | succ n ih =>
    rw [List.range_succ, List.foldl_append, ih, List.map_append, List.foldl_append]
    simp only [List.foldl_cons, List.foldl_nil, Option.some_bind, List.map_cons, List.map_nil]
    unfold Scene.sample
    simp only [hc, Option.map_some']
    rfl

theorem pixel_eq (s : Scene F R P) (rand : Nat → F) (color : R → Color3 F)
    (hc : ∀ ray, (s.getPixelColor ray s.image.bounces).1 = some (color ray))
    (draws : Nat) (done : List (Effect F)) (p : Int × Int) :
    s.pixel rand (draws, done) p
      = some (draws + 2 * s.image.samples.toNat,
          done ++ [Effect.setPixel p.1 p.2 (rawSum s rand color draws p.1 p.2),
            Effect.progress]) := by
  unfold Scene.pixel
  rw [foldl_sample s rand color hc]
  rfl

theorem foldl_pixel (s : Scene F R P) (rand : Nat → F) (color : R → Color3 F)
    (hc : ∀ ray, (s.getPixelColor ray s.image.bounces).1 = some (color ray))
    (work : List (Int × Int)) :
    ∀ (draws : Nat) (done : List (Effect F)),
      work.foldl (fun st p => st.bind (fun st => s.pixel rand st p)) (some (draws, done))
        = some (draws + 2 * s.image.samples.toNat * work.length,
            done ++ jobSpec s rand color draws work) := by
  induction work with
  | nil => intro draws done; simp [jobSpec]
  | cons p rest ih =>
    intro draws done
    rw [List.foldl_cons, Option.some_bind, pixel_eq s rand color hc, ih]
    simp only [jobSpec, List.length_cons, List.append_assoc, List.cons_append, List.nil_append]
    congr 2
    ring

theorem foldl_bind_none {α β : Type} (f : β → α → Option α) (l : List β) :
    l.foldl (fun acc b => acc.bind (f b)) none = none := by
  induction l with
  | nil => rfl
  | cons b rest ih => rw [List.foldl_cons, Option.none_bind, ih]

/-- With a null accelerator, a positive bounce budget and at least one sample
per pixel, a worker job on a non-empty work list fails at its first call of
`getPixelColor`, before any `setPixel`. -/
theorem getJob_null (s : Scene F R P) (rand : Nat → F) (draws : Nat) (p : Int × Int)
    (rest : List (Int × Int)) (ha : s.accelerator = none) (hb : 0 < s.image.bounces)
    (hs : 0 < s.image.samples) :
    s.getJob rand draws (p :: rest) = none := by
  obtain ⟨n, hn⟩ : ∃ n, s.image.samples.toNat = n + 1 := ⟨s.image.samples.toNat - 1, by omega⟩
  have hsample : ∀ st, s.sample rand p.1 p.2 st = none := by
    intro st
    unfold Scene.sample
    simp only [getPixelColor_null s _ s.image.bounces hb ha, Option.map_none']
  have hpixel : s.pixel rand (draws, []) p = none := by
    unfold Scene.pixel
    rw [hn, List.range_succ_eq_map, List.foldl_cons, Option.some_bind, hsample]
    rw [foldl_bind_none (fun _ => s.sample rand p.1 p.2)]
    rfl
  unfold Scene.getJob
  rw [List.foldl_cons, Option.some_bind, hpixel,
    foldl_bind_none (fun q st => s.pixel rand st q)]
  rfl

theorem jobSpec_length (s : Scene F R P) (rand : Nat → F) (color : R → Color3 F)
    (work : List (Int × Int)) :
    ∀ draws : Nat, (jobSpec s rand color draws work).length = 2 * work.length := by
  induction work with
  | nil => intro draws; rfl
  | cons p rest ih =>
    intro draws
    simp only [jobSpec, List.length_cons, ih]
    omega

theorem jobSpec_countP_progress (s : Scene F R P) (rand : Nat → F)
    (color : R → Color3 F) (work : List (Int × Int)) :
    ∀ draws : Nat,
      (jobSpec s rand color draws work).countP Effect.isProgress = work.length := by
  induction work with
  | nil => intro draws; rfl
  | cons p rest ih =>
    intro draws
    simp only [jobSpec, List.length_cons, List.countP_cons, ih, Effect.isProgress]
    simp

theorem jobSpec_countP_setPixel (s : Scene F R P) (rand : Nat → F)
    (color : R → Color3 F) (row col : Int) (work : List (Int × Int)) :
    ∀ draws : Nat,
      (jobSpec s rand color draws work).countP (Effect.isSetPixel row col)
        = work.countP (fun p => decide (p.1 = row ∧ p.2 = col)) := by
  induction work with
  | nil => intro draws; rfl
  | cons p rest ih =>
    intro draws
    simp only [jobSpec, List.countP_cons, ih, Effect.isSetPixel]
    simp

end JobProofs


section ConstructionProofs

variable {F R P : Type}

theorem notifyAccelerator_bvh (BVH : List (Hittable F R P) → Hittable F R P)
    (s : Scene F R P) (log : BuildLog F R P) (h : s.acceleratorType = "bvh") :
    s.notifyAccelerator BVH log
      = ({ s with accelerator := some (BVH s.objects) }, log ++ [s.objects]) := by
  unfold Scene.notifyAccelerator
  rw [if_pos h]

theorem notifyAccelerator_other (BVH : List (Hittable F R P) → Hittable F R P)
    (s : Scene F R P) (log : BuildLog F R P) (h : s.acceleratorType ≠ "bvh") :
    s.notifyAccelerator BVH log = (s, log) := by
  unfold Scene.notifyAccelerator
  rw [if_neg h]

theorem new_bvh (BVH : List (Hittable F R P) → Hittable F R P)
    (camera : Camera F R) (image : Image) (ambient : Color3 F)
    (hittables : List (Hittable F R P)) (log : BuildLog F R P) :
    Scene.new BVH camera image "bvh" ambient hittables log
      = (Except.ok
          { camera := camera, image := image, ambient := ambient,
            acceleratorType := "bvh", objects := hittables,
            accelerator := some (BVH hittables) },
          log ++ [hittables]) := by
  unfold Scene.new
  simp only [ne_eq, not_true_eq_false, false_and, if_false]
  rw [notifyAccelerator_bvh _ _ _ rfl]

theorem new_kdtree (BVH : List (Hittable F R P) → Hittable F R P)
    (camera : Camera F R) (image : Image) (ambient : Color3 F)
    (hittables : List (Hittable F R P)) (log : BuildLog F R P) :
    Scene.new BVH camera image "kdtree" ambient hittables log
      = (Except.ok
          { camera := camera, image := image, ambient := ambient,
            acceleratorType := "kdtree", objects := hittables, accelerator := none },
          log) := by
  unfold Scene.new
  simp only [ne_eq, not_true_eq_false, and_false, if_false]
  have hne : ("kdtree" : String) ≠ "bvh" := by decide
  rw [notifyAccelerator_other BVH _ log (by exact hne)]

/-- On the `"bvh"` path every mutator leaves an accelerator built from the
objects as they then stand. -/
theorem bvh_scene_accelerator_fresh (BVH : List (Hittable F R P) → Hittable F R P)
    (s : Scene F R P) (h : s.acceleratorType = "bvh") (log : BuildLog F R P)
    (x : Hittable F R P) (xs : List (Hittable F R P)) :
    (s.pushHittable BVH x log).1.accelerator
        = some (BVH (s.pushHittable BVH x log).1.objects)
      ∧ (s.pushHittables BVH xs log).1.accelerator
          = some (BVH (s.pushHittables BVH xs log).1.objects)
      ∧ (s.loadHittable BVH x log).1.accelerator
          = some (BVH (s.loadHittable BVH x log).1.objects)
      ∧ (s.loadHittables BVH xs log).1.accelerator
          = some (BVH (s.loadHittables BVH xs log).1.objects) := by
  refine ⟨?_, ?_, ?_, ?_⟩
  · unfold Scene.pushHittable; rw [notifyAccelerator_bvh BVH _ log (by exact h)]
  · unfold Scene.pushHittables; rw [notifyAccelerator_bvh BVH _ log (by exact h)]
  · unfold Scene.loadHittable; rw [notifyAccelerator_bvh BVH _ log (by exact h)]
  · unfold Scene.loadHittables; rw [notifyAccelerator_bvh BVH _ log (by exact h)]

/-- Off the `"bvh"` path no mutator touches the accelerator. -/
theorem other_scene_accelerator_kept (BVH : List (Hittable F R P) → Hittable F R P)
    (s : Scene F R P) (h : s.acceleratorType ≠ "bvh") (log : BuildLog F R P)
    (x : Hittable F R P) (xs : List (Hittable F R P)) :
    (s.pushHittable BVH x log).1.accelerator = s.accelerator
      ∧ (s.pushHittables BVH xs log).1.accelerator = s.accelerator
      ∧ (s.loadHittable BVH x log).1.accelerator = s.accelerator
      ∧ (s.loadHittables BVH xs log).1.accelerator = s.accelerator := by
  refine ⟨?_, ?_, ?_, ?_⟩
  · unfold Scene.pushHittable; rw [notifyAccelerator_other BVH _ log (by exact h)]
  · unfold Scene.pushHittables; rw [notifyAccelerator_other BVH _ log (by exact h)]
  · unfold Scene.loadHittable; rw [notifyAccelerator_other BVH _ log (by exact h)]
  · unfold Scene.loadHittables; rw [notifyAccelerator_other BVH _ log (by exact h)]

end ConstructionProofs


section SchedulerProofs

theorem tracedLines_append (a b : List SchedCall) :
    tracedLines (a ++ b) = tracedLines a ++ tracedLines b := by
  simp [tracedLines, List.filterMap_append]

theorem tracedLines_round (T y : Nat) :
    tracedLines ((List.range T).map (fun i => SchedCall.traceLine (y + i))) = List.range' y T := by
  unfold tracedLines
  rw [List.filterMap_map]
  have : (SchedCall.line? ∘ fun i => SchedCall.traceLine (y + i))
      = some ∘ (fun i => y + i) := rfl
  rw [this, List.filterMap_eq_map, List.range'_eq_map_range]

/-- The lines traced from line `y` on: whole rounds of `T` lines until the
round that reaches `H`. -/
theorem tracedLines_scheduleFrom (H T : Nat) (hT : 0 < T) (n : Nat) :
    ∀ y, H - y ≤ n →
      tracedLines (Scheduler.scheduleFrom H T y)
        = List.range' y (T * ((H - y + T - 1) / T)) := by
  induction n with
  | zero =>
    intro y hy
    rw [Scheduler.scheduleFrom, if_neg (by omega)]
    have h0 : (H - y + T - 1) / T = 0 := Nat.div_eq_of_lt (by omega)
    rw [h0]; rfl
  | succ n ih =>
    intro y hy
    by_cases hlt : y < H
    · rw [Scheduler.scheduleFrom, if_pos ⟨hlt, hT⟩]
      rw [show SchedCall.observer y H
            :: (List.range T).map (fun i => SchedCall.traceLine (y + i))
            ++ Scheduler.scheduleFrom H T (y + T)
          = [SchedCall.observer y H]
            ++ ((List.range T).map (fun i => SchedCall.traceLine (y + i))
            ++ Scheduler.scheduleFrom H T (y + T)) from rfl]
      rw [tracedLines_append, tracedLines_append, tracedLines_round, ih (y + T) (by omega)]
      have hdiv : (H - y + T - 1) / T = (H - (y + T) + T - 1) / T + 1 := by
        by_cases hge : y + T ≤ H
        · have e1 : H - y + T - 1 = (H - (y + T) + T - 1) + T := by omega
          rw [e1, Nat.add_div_right _ hT]
        · have e1 : H - y + T - 1 = (H - y - 1) + T := by omega
          have e2 : H - (y + T) + T - 1 = T - 1 := by omega
          rw [e1, Nat.add_div_right _ hT, e2, Nat.div_eq_of_lt (by omega : H - y - 1 < T),
            Nat.div_eq_of_lt (by omega : T - 1 < T)]
      rw [hdiv, Nat.mul_add, Nat.mul_one, Nat.add_comm (T * _) T]
      show [] ++ _ = _
      rw [List.nil_append, List.range'_append_1, Nat.add_comm]
    · rw [Scheduler.scheduleFrom, if_neg (by omega)]
      have h0 : (H - y + T - 1) / T = 0 := Nat.div_eq_of_lt (by omega)
      rw [h0]; rfl

/-- The lines passed to `traceLine` by `schedule`: all lines below the image
height rounded up to a multiple of the thread count. -/
theorem tracedLines_schedule (H T : Nat) (hT : 0 < T) :
    ∃ calls, Scheduler.schedule H T = some calls
      ∧ tracedLines calls = List.range (T * ((H + T - 1) / T)) := by
  refine ⟨_, by unfold Scheduler.schedule; rw [if_neg (by omega)], ?_⟩
  rw [tracedLines_append, tracedLines_scheduleFrom H T hT H 0 (by omega), List.range_eq_range']
  simp [tracedLines, SchedCall.line?]

/-- Whenever the thread count does not divide the image height, `schedule`
passes line `img_y_res`, which is outside the image, to `traceLine`. -/
theorem schedule_traces_line_outside (H T : Nat) (hT : 0 < T) (hnd : H % T ≠ 0) :
    ∃ calls, Scheduler.schedule H T = some calls ∧ H ∈ tracedLines calls := by
  obtain ⟨calls, h1, h2⟩ := tracedLines_schedule H T hT
  refine ⟨calls, h1, ?_⟩
  rw [h2, List.mem_range]
  have hm := Nat.div_add_mod H T
  have hlt := Nat.mod_lt H hT
  have hd : (H + T - 1) / T = H / T + 1 := by
    have e : H + T - 1 = T * (H / T) + (H % T - 1 + T) := by omega
    rw [e, Nat.mul_add_div hT, Nat.add_div_right _ hT,
      Nat.div_eq_of_lt (by omega : H % T - 1 < T)]
  rw [hd, Nat.mul_add, Nat.mul_one]
  omega

end SchedulerProofs


/-! ## The claims -/

section IntegratorClaims

variable {F R P : Type} [DoubleOps F]

/-- C1: for every scene, every ray and every `bouncesLeft ≤ 0`,
`Scene::getPixelColor(ray, bouncesLeft)` returns exactly the black color
`(0, 0, 0)` and makes no call to the accelerator or to a material; the
`getPixelColor` of the older `Scene` returns black there as well. -/
theorem getPixelColor_depth_limit (s : Scene F R P) (bvh : LegacyBVH F R P) (unitY : R → F)
    (ray : R) (bouncesLeft : Int) (h : bouncesLeft ≤ 0) :
    s.getPixelColor ray bouncesLeft = (some black, [])
      ∧ legacyGetPixelColor bvh unitY ray bouncesLeft = black :=
  ⟨getPixelColor_of_le s ray bouncesLeft h,
    legacyGetPixelColor_of_le bvh unitY ray bouncesLeft h⟩

theorem getPixelColor_depth_limit_witness :
    demoScene.getPixelColor 0 (-1) = (some black, [])
      ∧ legacyGetPixelColor (⟨fun _ _ _ => none⟩ : LegacyBVH ℚ ℚ ℚ) (fun r => r) 0 (-1)
          = black :=
  getPixelColor_depth_limit demoScene ⟨fun _ _ _ => none⟩ (fun r => r) 0 (-1) (by decide)

/-- C2: for every ray and every `bouncesLeft > 0`, if the accelerator query over
`[0.001, DBL_MAX]` reports no hit, `getPixelColor` returns the ambient color of
the scene unmodified, whatever the ray and `bouncesLeft` are, and the
accelerator query is the only call made: no material is asked to emit or
scatter. -/
theorem getPixelColor_no_hit_ambient (s : Scene F R P) (acc : Hittable F R P) (ray : R)
    (bouncesLeft : Int) (h : 0 < bouncesLeft) (ha : s.accelerator = some acc)
    (hq : acc.hit ray DoubleOps.tMin DoubleOps.DBL_MAX = none) :
    (s.getPixelColor ray bouncesLeft).1 = some s.ambient
      ∧ (s.getPixelColor ray bouncesLeft).2 = [Call.hit ray DoubleOps.tMin DoubleOps.DBL_MAX]
      ∧ ∀ c ∈ (s.getPixelColor ray bouncesLeft).2, c.isMaterial = false := by
  rw [getPixelColor_miss s acc ray bouncesLeft h ha hq]
  refine ⟨rfl, rfl, ?_⟩
  intro c hc
  rw [List.mem_singleton.mp hc]
  rfl

theorem getPixelColor_no_hit_ambient_witness :
    (demoVoidScene.getPixelColor 4 2).1 = some ⟨7, 7, 7⟩
      ∧ (demoVoidScene.getPixelColor 4 2).2 = [Call.hit 4 DoubleOps.tMin DoubleOps.DBL_MAX]
      ∧ ∀ c ∈ (demoVoidScene.getPixelColor 4 2).2, c.isMaterial = false :=
  getPixelColor_no_hit_ambient demoVoidScene demoVoid 4 2 (by decide) rfl rfl

/-- C3: for every ray and every `bouncesLeft > 0` for which the accelerator
reports a hit, `getPixelColor` returns `emitted = material.emit(u, v, point)`
when the scatter of the material fails, and otherwise returns
`emitted + getPixelColor(scatteredRay, bouncesLeft - 1) * attenuation`, the
product being component-wise, with the outputs of that scatter call; as the
product of two `double` values commutes this is
`emitted + attenuation * getPixelColor(scatteredRay, bouncesLeft - 1)`. -/
theorem getPixelColor_hit_transport (s : Scene F R P) (acc : Hittable F R P) (ray : R)
    (bouncesLeft : Int) (hit : Hit F R P) (h : 0 < bouncesLeft)
    (ha : s.accelerator = some acc)
    (hq : acc.hit ray DoubleOps.tMin DoubleOps.DBL_MAX = some hit) :
    (hit.material.scatter ray hit.surface = none →
        (s.getPixelColor ray bouncesLeft).1
          = some (hit.material.emit hit.surface.u hit.surface.v hit.surface.location))
      ∧ (∀ (attenuation : Color3 F) (out : R),
          hit.material.scatter ray hit.surface = some (attenuation, out) →
          ∃ c : Color3 F,
            (s.getPixelColor out (bouncesLeft - 1)).1 = some c
            ∧ (s.getPixelColor ray bouncesLeft).1
                = some (hit.material.emit hit.surface.u hit.surface.v hit.surface.location
                    + c * attenuation)
            ∧ ((∀ x y : F, x * y = y * x) →
                (s.getPixelColor ray bouncesLeft).1
                  = some (hit.material.emit hit.surface.u hit.surface.v hit.surface.location
                      + attenuation * c))) := by
  constructor
  · intro hs
    rw [getPixelColor_absorb s acc ray bouncesLeft hit h ha hq hs]
  · intro attenuation out hs
    obtain ⟨c, hc⟩ := getPixelColor_isSome s acc ha (bouncesLeft - 1).toNat out
      (bouncesLeft - 1) (Int.self_le_toNat _)
    have hval : (s.getPixelColor ray bouncesLeft).1
        = some (hit.material.emit hit.surface.u hit.surface.v hit.surface.location
            + c * attenuation) := by
      rw [getPixelColor_bounce s acc ray out bouncesLeft hit attenuation h ha hq hs, hc]
      rfl
    refine ⟨c, hc, hval, ?_⟩
    intro hcomm
    rw [hval, Color3.mul_comm_of hcomm]

theorem getPixelColor_hit_transport_witness :
    ((demoScene.getPixelColor (5 / 2) 2).1 = some ⟨5, 5, 5⟩)
      ∧ ∃ c : Color3 ℚ, (demoScene.getPixelColor 1 1).1 = some c
          ∧ (demoScene.getPixelColor 0 2).1 = some (⟨1, 2, 3⟩ + ⟨2, 2, 2⟩ * c) := by
  have hlamp : demoAccelerator.hit (5 / 2) DoubleOps.tMin DoubleOps.DBL_MAX
      = some ⟨⟨0, 0, 0, 0, 1⟩, demoLamp⟩ := by
    norm_num [demoAccelerator]
  have hmirror : demoAccelerator.hit 0 DoubleOps.tMin DoubleOps.DBL_MAX
      = some ⟨⟨0, 0, 0, 0, 1⟩, demoMirror⟩ := by
    norm_num [demoAccelerator]
  refine ⟨(getPixelColor_hit_transport demoScene demoAccelerator (5 / 2) 2 _ (by decide) rfl
      hlamp).1 rfl, ?_⟩
  obtain ⟨c, h1, _, h3⟩ :=
    (getPixelColor_hit_transport demoScene demoAccelerator 0 2 _ (by decide) rfl hmirror).2
      ⟨2, 2, 2⟩ 1 (by simp [demoMirror])
  exact ⟨c, h1, h3 mul_comm⟩

/-- C8: for every scene, every ray, every material behaviour and every integer
`bouncesLeft`, the recursion of `getPixelColor` ends: the function is total,
the recursive call is made with `bouncesLeft - 1`, and one top-level call makes
at most `max(bouncesLeft, 0)` accelerator queries (and at most three calls per
level in all). -/
theorem getPixelColor_bounded_queries (s : Scene F R P) (ray : R) (bouncesLeft : Int) :
    ((s.getPixelColor ray bouncesLeft).2.filter Call.isHit).length ≤ (max bouncesLeft 0).toNat
      ∧ (s.getPixelColor ray bouncesLeft).2.length ≤ 3 * (max bouncesLeft 0).toNat
      ∧ (∀ (acc : Hittable F R P) (hit : Hit F R P) (attenuation : Color3 F) (out : R),
          0 < bouncesLeft → s.accelerator = some acc →
          acc.hit ray DoubleOps.tMin DoubleOps.DBL_MAX = some hit →
          hit.material.scatter ray hit.surface = some (attenuation, out) →
          (s.getPixelColor ray bouncesLeft).2
            = [Call.hit ray DoubleOps.tMin DoubleOps.DBL_MAX,
               Call.emit hit.surface.u hit.surface.v hit.surface.location,
               Call.scatter ray hit.surface]
              ++ (s.getPixelColor out (bouncesLeft - 1)).2) := by
  have hmax : (max bouncesLeft 0).toNat = bouncesLeft.toNat := by omega
  rw [hmax]
  obtain ⟨h1, h2⟩ := getPixelColor_calls_le s bouncesLeft.toNat ray bouncesLeft
    (Int.self_le_toNat _)
  refine ⟨h1, h2, ?_⟩
  intro acc hit attenuation out h ha hq hs
  rw [getPixelColor_bounce s acc ray out bouncesLeft hit attenuation h ha hq hs]

theorem getPixelColor_bounded_queries_witness :
    ((demoScene.getPixelColor 0 2).2.filter Call.isHit).length ≤ 2
      ∧ (demoScene.getPixelColor 0 2).2
          = [Call.hit 0 DoubleOps.tMin DoubleOps.DBL_MAX, Call.emit 0 0 0,
             Call.scatter 0 ⟨0, 0, 0, 0, 1⟩] ++ (demoScene.getPixelColor 1 1).2 := by
  have hmirror : demoAccelerator.hit 0 DoubleOps.tMin DoubleOps.DBL_MAX
      = some ⟨⟨0, 0, 0, 0, 1⟩, demoMirror⟩ := by
    norm_num [demoAccelerator]
  obtain ⟨h1, _, h3⟩ := getPixelColor_bounded_queries demoScene 0 2
  exact ⟨h1, h3 demoAccelerator _ ⟨2, 2, 2⟩ 1 (by decide) rfl hmirror (by simp [demoMirror])⟩

end IntegratorClaims


section SceneClaims

variable {F R P : Type}

/-- C5: constructing a `Scene` raises `std::invalid_argument` if and only if the
accelerator type string is neither `"bvh"` nor `"kdtree"`; the rejection comes
before any accelerator is built (the build log is unchanged) and yields no
`Scene` value, and every other type string yields a `Scene`. -/
theorem scene_new_invalid_argument_iff (BVH : List (Hittable F R P) → Hittable F R P)
    (camera : Camera F R) (image : Image) (acceleratorType : String) (ambient : Color3 F)
    (hittables : List (Hittable F R P)) (log : BuildLog F R P) :
    ((∃ what, (Scene.new BVH camera image acceleratorType ambient hittables log).1
          = Except.error (Exception.invalid_argument what))
        ↔ (acceleratorType ≠ "bvh" ∧ acceleratorType ≠ "kdtree"))
      ∧ ((acceleratorType ≠ "bvh" ∧ acceleratorType ≠ "kdtree") →
          (Scene.new BVH camera image acceleratorType ambient hittables log).2 = log
          ∧ ∀ s, (Scene.new BVH camera image acceleratorType ambient hittables log).1
              ≠ Except.ok s)
      ∧ ((acceleratorType = "bvh" ∨ acceleratorType = "kdtree") →
          ∃ s, (Scene.new BVH camera image acceleratorType ambient hittables log).1
              = Except.ok s) := by
  by_cases hbad : acceleratorType ≠ "bvh" ∧ acceleratorType ≠ "kdtree"
  · have hnew : Scene.new BVH camera image acceleratorType ambient hittables log
        = (Except.error (Exception.invalid_argument (invalidAcceleratorText acceleratorType)),
            log) := by
      unfold Scene.new
      rw [if_pos hbad]
    rw [hnew]
    refine ⟨⟨fun _ => hbad, fun _ => ⟨_, rfl⟩⟩, fun _ => ⟨rfl, fun s hs => ?_⟩, fun hor => ?_⟩
    · exact Except.noConfusion hs
    · rcases hor with h | h
      · exact absurd h hbad.1
      · exact absurd h hbad.2
  · have hnew : (Scene.new BVH camera image acceleratorType ambient hittables log).1
        = Except.ok (Scene.notifyAccelerator BVH
            { camera := camera, image := image, objects := hittables, ambient := ambient,
              acceleratorType := acceleratorType, accelerator := none } log).1 := by
      unfold Scene.new
      rw [if_neg hbad]
    rw [hnew]
    refine ⟨⟨fun ⟨_, hw⟩ => ?_, fun h => absurd h hbad⟩, fun h => absurd h hbad,
      fun _ => ⟨_, rfl⟩⟩
    exact Except.noConfusion hw

theorem scene_new_invalid_argument_iff_witness :
    (∃ what, (Scene.new demoBVH demoCamera demoImage "octree" ⟨7, 7, 7⟩ [] []).1
        = Except.error (Exception.invalid_argument what))
      ∧ (Scene.new demoBVH demoCamera demoImage "octree" ⟨7, 7, 7⟩ [] []).2 = []
      ∧ ∃ s, (Scene.new demoBVH demoCamera demoImage "kdtree" ⟨7, 7, 7⟩ [] []).1
          = Except.ok s :=
  ⟨(scene_new_invalid_argument_iff demoBVH demoCamera demoImage "octree" ⟨7, 7, 7⟩ [] []).1.mpr
      ⟨by decide, by decide⟩,
    ((scene_new_invalid_argument_iff demoBVH demoCamera demoImage "octree" ⟨7, 7, 7⟩ [] []).2.1
      ⟨by decide, by decide⟩).1,
    (scene_new_invalid_argument_iff demoBVH demoCamera demoImage "kdtree" ⟨7, 7, 7⟩ [] []).2.2
      (Or.inr rfl)⟩

/-- C6 (the code departs from the claim): a `Scene` built with the accelerator
type `"kdtree"` is accepted by the constructor, without any `BVH` being built;
its accelerator is null after construction and stays null after each of
`pushHittable`, `pushHittables`, `loadHittable` and `loadHittables`, so that a
`getPixelColor` call with a positive bounce budget dereferences a null
pointer. -/
theorem kdtree_scene_accelerator_missing [DoubleOps F]
    (BVH : List (Hittable F R P) → Hittable F R P)
    (camera : Camera F R) (image : Image) (ambient : Color3 F)
    (hittables : List (Hittable F R P)) (log : BuildLog F R P)
    (x : Hittable F R P) (xs : List (Hittable F R P)) (ray : R) :
    ∃ s : Scene F R P,
      Scene.new BVH camera image "kdtree" ambient hittables log = (Except.ok s, log)
      ∧ s.accelerator = none
      ∧ (s.pushHittable BVH x log).1.accelerator = none
      ∧ (s.pushHittables BVH xs log).1.accelerator = none
      ∧ (s.loadHittable BVH x log).1.accelerator = none
      ∧ (s.loadHittables BVH xs log).1.accelerator = none
      ∧ s.getPixelColor ray 1 = (none, [])
      ∧ (s.pushHittable BVH x log).1.getPixelColor ray 1 = (none, []) := by
  have hne : ("kdtree" : String) ≠ "bvh" := by decide
  refine ⟨{ camera := camera, image := image, ambient := ambient, acceleratorType := "kdtree",
            objects := hittables, accelerator := none },
    new_kdtree BVH camera image ambient hittables log, rfl, ?_⟩
  obtain ⟨h1, h2, h3, h4⟩ := other_scene_accelerator_kept BVH
    ({ camera := camera, image := image, ambient := ambient, acceleratorType := "kdtree",
       objects := hittables, accelerator := none } : Scene F R P) hne log x xs
  exact ⟨h1, h2, h3, h4, getPixelColor_null _ ray 1 (by decide) rfl,
    getPixelColor_null _ ray 1 (by decide) h1⟩

/-- On a scene whose accelerator pointer is not null the worker job does what
is specified: for every pixel `(row, col)` of the work list, in the order of
the list, one `image.setPixel(row, col, c)` after the samples of that pixel,
`c` being the raw sum, from black, of the `image.samples` colors
`getPixelColor(camera.getRay((col + dx) / width, (row + dy) / height),
image.bounces)`, neither averaged nor clamped, and then one increment of the
progress counter.  `color ray` is the color that `getPixelColor` returns for
`ray`. -/
theorem getJob_raw_sum [DoubleOps F] (s : Scene F R P) (acc : Hittable F R P)
    (ha : s.accelerator = some acc) (rand : Nat → F) (draws : Nat)
    (work : List (Int × Int)) :
    ∃ color : R → Color3 F,
      (∀ ray, (s.getPixelColor ray s.image.bounces).1 = some (color ray))
      ∧ s.getJob rand draws work = some (jobSpec s rand color draws work)
      ∧ (jobSpec s rand color draws work).countP Effect.isProgress = work.length
      ∧ (∀ row col : Int,
          (jobSpec s rand color draws work).countP (Effect.isSetPixel row col)
            = work.countP (fun p => decide (p.1 = row ∧ p.2 = col))) := by
  have hc : ∀ ray, (s.getPixelColor ray s.image.bounces).1
      = some (((s.getPixelColor ray s.image.bounces).1).getD black) := by
    intro ray
    obtain ⟨c, hc⟩ := getPixelColor_isSome s acc ha s.image.bounces.toNat ray s.image.bounces
      (Int.self_le_toNat _)
    rw [hc]
    rfl
  refine ⟨fun ray => ((s.getPixelColor ray s.image.bounces).1).getD black, hc, ?_,
    jobSpec_countP_progress s rand _ work draws,
    fun row col => jobSpec_countP_setPixel s rand _ row col work draws⟩
  unfold Scene.getJob
  rw [foldl_pixel s rand _ hc work draws []]
  rfl

theorem getJob_raw_sum_witness :
    demoVoidScene.getJob (fun n => (n : ℚ)) 0 [(0, 0), (1, 2)]
      = some [Effect.setPixel 0 0 ⟨14, 14, 14⟩, Effect.progress,
          Effect.setPixel 1 2 ⟨14, 14, 14⟩, Effect.progress] := by
  obtain ⟨color, hc, h, _, _⟩ :=
    getJob_raw_sum demoVoidScene demoVoid rfl (fun n => (n : ℚ)) 0 [(0, 0), (1, 2)]
  have hcol : ∀ ray, color ray = ⟨7, 7, 7⟩ := by
    intro ray
    have h1 := hc ray
    rw [show demoVoidScene.image.bounces = 3 from rfl,
      getPixelColor_miss demoVoidScene demoVoid ray 3 (by decide) rfl rfl] at h1
    exact (Option.some.inj h1).symm
  rw [h]
  have h2 : Int.toNat 2 = 2 := by decide
  simp only [jobSpec, rawSum, hcol, demoVoidScene, demoImage, h2, List.range_succ,
    List.range_zero, List.nil_append, List.cons_append, List.map_cons, List.map_nil,
    List.foldl_cons, List.foldl_nil, Color3.add_def]
  norm_num

/-- C7 (the code departs from the claim): on the scene that the constructor
builds for the accelerator type `"kdtree"`, with a 3 x 2 image of 2 samples per
pixel and 3 bounces, the accelerator is null and the worker job of every
non-empty work list of `render(4)` fails at its first `getPixelColor`: it
calls `setPixel` for no pixel and never increments the progress counter. -/
theorem getJob_kdtree_scene_no_setPixel :
    ∃ (s : Scene ℚ ℚ ℚ) (locations : Locations),
      Scene.new demoBVH demoCamera demoImage "kdtree" ⟨7, 7, 7⟩ [] [] = (Except.ok s, [])
      ∧ s.accelerator = none
      ∧ renderLocations s.image 4 = some locations
      ∧ locations = [[(0, 0), (1, 1)], [(0, 1), (1, 2)], [(0, 2)], [(1, 0)]]
      ∧ ∀ work ∈ locations, s.getJob (fun n => (n : ℚ)) 0 work = none := by
  refine ⟨{ camera := demoCamera, image := demoImage, ambient := ⟨7, 7, 7⟩,
            acceleratorType := "kdtree", objects := [], accelerator := none },
    [[(0, 0), (1, 1)], [(0, 1), (1, 2)], [(0, 2)], [(1, 0)]],
    new_kdtree demoBVH demoCamera demoImage ⟨7, 7, 7⟩ [] [], rfl, by decide, rfl, ?_⟩
  intro work hwork
  simp only [List.mem_cons, List.mem_singleton, List.not_mem_nil, or_false] at hwork
  rcases hwork with h | h | h | h <;> subst h <;>
    exact getJob_null _ _ 0 _ _ rfl (by decide) (by decide)

/-- C10 (the code departs from the claim): for an image of 5 lines and 4
hardware threads `Scheduler::schedule` calls `traceLine` for the lines
`0 .. 7`; the lines 5, 6 and 7 are not below `img_y_res = 5`, and for an image
one pixel wide `traceLine(tracer, 5)` writes the indices 15, 16 and 17 of a
`pixels` buffer of size 15. -/
theorem schedule_traces_lines_outside_image :
    ∃ calls : List SchedCall,
      Scheduler.schedule 5 4 = some calls
      ∧ tracedLines calls = [0, 1, 2, 3, 4, 5, 6, 7]
      ∧ SchedCall.traceLine 5 ∈ calls
      ∧ Scheduler.traceLine 1 5 = [15, 16, 17]
      ∧ Scheduler.pixelsSize 1 5 = 15 := by
  refine ⟨[SchedCall.observer 0 5, SchedCall.traceLine 0, SchedCall.traceLine 1,
      SchedCall.traceLine 2, SchedCall.traceLine 3, SchedCall.observer 4 5,
      SchedCall.traceLine 4, SchedCall.traceLine 5, SchedCall.traceLine 6,
      SchedCall.traceLine 7, SchedCall.observer 5 5], ?_, by decide, by decide, by decide,
    by decide⟩
  simp [Scheduler.schedule, Scheduler.scheduleFrom, List.range_succ]

end SceneClaims

section RenderClaims

/-- C4: for every image width `≥ 0`, height `≥ 0` and thread count `k ≥ 1` the
work lists built by `Scene::render` partition the pixel grid: there are `k`
lists, every `(row, col)` with `0 ≤ row < height` and `0 ≤ col < width` occurs
exactly once in one list and in no other list, no other pair occurs, and the
lengths of the lists add up to `width * height`, which is the `entries` the
progress counter is compared against as long as that product fits an `int`. -/
theorem render_locations_partition (image : Image) (threads : Int)
    (hw : 0 ≤ image.width) (hh : 0 ≤ image.height) (hk : 1 ≤ threads) :
    ∃ locations : Locations,
      renderLocations image threads = some locations
      ∧ locations.length = threads.toNat
      ∧ (∀ row col : Int, 0 ≤ row → row < image.height → 0 ≤ col → col < image.width →
          ∃ (t : Nat) (l : List (Int × Int)), locations[t]? = some l ∧ l.count (row, col) = 1
            ∧ ∀ (t' : Nat) (l' : List (Int × Int)), t' ≠ t → locations[t']? = some l' →
                (row, col) ∉ l')
      ∧ (∀ l ∈ locations, ∀ p ∈ l,
          0 ≤ p.1 ∧ p.1 < image.height ∧ 0 ≤ p.2 ∧ p.2 < image.width)
      ∧ ((locations.map List.length).sum : Int) = image.width * image.height
      ∧ (image.width * image.height ≤ INT_MAX →
          renderEntries image = ((locations.map List.length).sum : Int)) := by
  obtain ⟨k, rfl⟩ := Int.eq_ofNat_of_zero_le (show (0 : Int) ≤ threads by omega)
  have hk0 : 0 < k := by omega
  obtain ⟨img_w, img_h, samples, bounces⟩ := image
  simp only at hw hh
  obtain ⟨w, rfl⟩ := Int.eq_ofNat_of_zero_le hw
  obtain ⟨h, rfl⟩ := Int.eq_ofNat_of_zero_le hh
  have hsum : (((List.range k).map (fun t => (stride k (h * w) t).map (pixelAt w))).map
      List.length).sum = h * w := by
    rw [List.map_map]
    have : (List.range k).map (List.length ∘ fun t => (stride k (h * w) t).map (pixelAt w))
        = (List.range k).map (fun t => strideLen k (h * w) t) := by
      apply List.map_congr_left
      intro t ht
      simp [length_stride k (h * w) t hk0 (List.mem_range.mp ht)]
    rw [this, sum_strideLen k (h * w) hk0]
  refine ⟨_, renderLocations_eq _ k hk0, by simp, ?_, ?_, ?_, ?_⟩
  · intro row col hr0 hr1 hc0 hc1
    simp only [Int.toNat_ofNat] at *
    obtain ⟨r, rfl⟩ := Int.eq_ofNat_of_zero_le hr0
    obtain ⟨c, rfl⟩ := Int.eq_ofNat_of_zero_le hc0
    have hr : r < h := by omega
    have hc : c < w := by omega
    have hi : r * w + c < h * w := by
      calc r * w + c < r * w + w := by omega
        _ = (r + 1) * w := by ring
        _ ≤ h * w := Nat.mul_le_mul_right w hr
    have hmem : r * w + c ∈ stride k (h * w) ((r * w + c) % k) :=
      (mem_stride _ _ _ _).mpr ⟨hi, rfl⟩
    refine ⟨(r * w + c) % k, (stride k (h * w) ((r * w + c) % k)).map (pixelAt w), ?_, ?_, ?_⟩
    · rw [List.getElem?_map, List.getElem?_range (Nat.mod_lt _ hk0)]
      rfl
    · rw [← pixelAt_mul_add w r c hc]
      exact count_map_eq_one _ (pixelAt_injective w) _ (nodup_stride _ _ _) _ hmem
    · intro t' l' hne hl' hin
      obtain ⟨_, rfl⟩ := getElem?_map_range k t' _ l' hl'
      rw [← pixelAt_mul_add w r c hc] at hin
      obtain ⟨i, hi', hpi⟩ := List.mem_map.mp hin
      have := pixelAt_injective w hpi
      subst this
      exact hne ((mem_stride _ _ _ _).mp hi').2.symm
  · intro l hl p hp
    simp only [Int.toNat_ofNat] at *
    obtain ⟨t, _, rfl⟩ := List.mem_map.mp hl
    obtain ⟨i, hi, rfl⟩ := List.mem_map.mp hp
    have hin : i < h * w := ((mem_stride _ _ _ _).mp hi).1
    have hw0 : 0 < w := by
      rcases Nat.eq_zero_or_pos w with h0 | h0
      · subst h0; simp at hin
      · exact h0
    have h1 : i / w < h := Nat.div_lt_of_lt_mul (by rw [Nat.mul_comm]; exact hin)
    have h2 : i % w < w := Nat.mod_lt i hw0
    simp only [pixelAt]
    exact ⟨by positivity, by exact_mod_cast h1, by positivity, by exact_mod_cast h2⟩
  · simp only [Int.toNat_ofNat]
    rw [hsum]
    push_cast
    ring
  · intro hfit
    simp only [Int.toNat_ofNat]
    rw [hsum]
    unfold renderEntries
    rw [toInt32_of_range _ (by positivity) hfit]
    push_cast
    ring

/-- C9: for every width, height and thread count `k ≥ 1`, `Scene::render` puts
the pixel with flattened row-major index `i = row * width + col` on the list of
worker `i mod k`; the list of worker `t` starts at index `t` and its
consecutive entries are exactly `k` flattened indices apart, hence in
increasing order; and the lengths of any two lists differ by at most one. -/
theorem render_locations_round_robin (image : Image) (threads : Int) (hk : 1 ≤ threads) :
    ∃ locations : Locations,
      renderLocations image threads = some locations
      ∧ locations.length = threads.toNat
      ∧ (∀ row col : Int, 0 ≤ row → row < image.height → 0 ≤ col → col < image.width →
          ∃ l : List (Int × Int),
            locations[((row * image.width + col) % threads).toNat]? = some l ∧ (row, col) ∈ l)
      ∧ (∀ (t : Nat) (l : List (Int × Int)), locations[t]? = some l →
          (∀ p : Int × Int, l[0]? = some p → p.1 * image.width + p.2 = (t : Int))
          ∧ ∀ (j : Nat) (p q : Int × Int), l[j]? = some p → l[j + 1]? = some q →
              q.1 * image.width + q.2 = p.1 * image.width + p.2 + threads)
      ∧ (∀ l ∈ locations, ∀ l' ∈ locations, l.length ≤ l'.length + 1) := by
  obtain ⟨k, rfl⟩ := Int.eq_ofNat_of_zero_le (show (0 : Int) ≤ threads by omega)
  have hk0 : 0 < k := by omega
  refine ⟨_, renderLocations_eq _ k hk0, by simp, ?_, ?_, ?_⟩
  · intro row col hr0 hr1 hc0 hc1
    obtain ⟨r, rfl⟩ := Int.eq_ofNat_of_zero_le hr0
    obtain ⟨c, rfl⟩ := Int.eq_ofNat_of_zero_le hc0
    have hwid : image.width = (image.width.toNat : Int) := by omega
    have hhei : image.height = (image.height.toNat : Int) := by omega
    generalize image.width.toNat = w at *
    generalize image.height.toNat = h at *
    rw [hwid]
    have hr : r < h := by omega
    have hc : c < w := by omega
    have hi : r * w + c < h * w := by
      calc r * w + c < r * w + w := by omega
        _ = (r + 1) * w := by ring
        _ ≤ h * w := Nat.mul_le_mul_right w hr
    have hidx : (((r : Int) * (w : Int) + (c : Int)) % (k : Int)).toNat = (r * w + c) % k := by
      have : ((r : Int) * (w : Int) + (c : Int)) % (k : Int) = (((r * w + c) % k : Nat) : Int) := by
        push_cast; rfl
      rw [this, Int.toNat_ofNat]
    rw [hidx]
    refine ⟨(stride k (h * w) ((r * w + c) % k)).map (pixelAt w), ?_, ?_⟩
    · rw [List.getElem?_map, List.getElem?_range (Nat.mod_lt _ hk0)]
      rfl
    · rw [← pixelAt_mul_add w r c hc]
      exact List.mem_map_of_mem _ ((mem_stride _ _ _ _).mpr ⟨hi, rfl⟩)
  · intro t l hl
    obtain ⟨ht, rfl⟩ := getElem?_map_range k t _ l hl
    rw [stride_eq_map k _ t hk0 ht, List.map_map]
    have hlen : ∀ j p, ((List.range (strideLen k (image.height.toNat * image.width.toNat) t)).map
        (pixelAt image.width.toNat ∘ fun j => j * k + t))[j]? = some p →
        p = pixelAt image.width.toNat (j * k + t) ∧ image.width = (image.width.toNat : Int) := by
      intro j p hp
      obtain ⟨hj, rfl⟩ := getElem?_map_range _ j _ p hp
      refine ⟨rfl, ?_⟩
      by_contra hneg
      have hw0 : image.width.toNat = 0 := by omega
      rw [hw0] at hj
      simp [strideLen] at hj
    constructor
    · intro p hp
      obtain ⟨rfl, hwid⟩ := hlen 0 p hp
      rw [hwid, Int.toNat_ofNat, pixelAt_flat]
      simp
    · intro j p q hp hq
      obtain ⟨rfl, hwid⟩ := hlen j p hp
      obtain ⟨rfl, _⟩ := hlen (j + 1) q hq
      rw [hwid, Int.toNat_ofNat, pixelAt_flat, pixelAt_flat]
      push_cast
      ring
  · intro l hl l' hl'
    obtain ⟨t, ht, rfl⟩ := List.mem_map.mp hl
    obtain ⟨u, hu, rfl⟩ := List.mem_map.mp hl'
    rw [List.length_map, List.length_map, length_stride k _ t hk0 (List.mem_range.mp ht),
      length_stride k _ u hk0 (List.mem_range.mp hu)]
    exact strideLen_le_succ _ _ _ _

theorem render_locations_partition_witness :
    ∃ locations : Locations,
      renderLocations demoImage 4 = some locations
      ∧ locations.length = 4
      ∧ (∃ (t : Nat) (l : List (Int × Int)), locations[t]? = some l ∧ l.count (1, 2) = 1
          ∧ ∀ (t' : Nat) (l' : List (Int × Int)), t' ≠ t → locations[t']? = some l' →
              ((1, 2) : Int × Int) ∉ l')
      ∧ ((locations.map List.length).sum : Int) = demoImage.width * demoImage.height
      ∧ renderEntries demoImage = ((locations.map List.length).sum : Int) := by
  obtain ⟨locations, h1, h2, h3, _, h5, h6⟩ :=
    render_locations_partition demoImage 4 (by decide) (by decide) (by decide)
  exact ⟨locations, h1, h2, h3 1 2 (by decide) (by decide) (by decide) (by decide), h5,
    h6 (by decide)⟩

theorem render_locations_round_robin_witness :
    ∃ locations : Locations,
      renderLocations demoImage 4 = some locations
      ∧ (∃ l : List (Int × Int),
          locations[((1 * demoImage.width + 2) % 4).toNat]? = some l ∧ (1, 2) ∈ l)
      ∧ (∀ l ∈ locations, ∀ l' ∈ locations, l.length ≤ l'.length + 1) := by
  obtain ⟨locations, h1, _, h3, _, h5⟩ := render_locations_round_robin demoImage 4 (by decide)
  exact ⟨locations, h1, h3 1 2 (by decide) (by decide) (by decide) (by decide), h5⟩

end RenderClaims

end CppTrace
